import Mathlib

/-!
Shallow embedding of the `flaky_test_detector` Python package
(`detector.py`, `ci_analyzer.py`, `analyzer.py`, `suggester.py`) and proofs
about its aggregation, scoring, classification and suggestion logic.

Conventions of the embedding:
* Python `float` scores are modelled as `ℚ`; every score formula in the
  source is a ratio of small integers, and all comparisons proved here are
  exact in the source's float arithmetic as well.
* Python dictionaries (keyed by test id / test name, insertion ordered) are
  modelled as association lists with an upsert that keeps the position of an
  existing key and appends a fresh key at the end.
* `re.search` and the `ast` module are external capabilities the analyzer
  consumes; they are modelled as explicit oracle inputs (a match predicate,
  and a parsed-module value carrying each function's name, first line and
  `ast.get_source_segment` result).
-/

namespace FlakyDetector

/-- `detector.py` / `TestResult`: a single test execution result. -/
structure TestResult where
  test_id : String
  outcome : String
  duration : ℚ
  error_message : String
deriving Repr, DecidableEq

/-- `detector.py` / `FlakyTest`: per-test aggregate of execution history. -/
structure FlakyTest where
  test_id : String
  test_file : String
  test_function : String
  pass_count : Nat
  fail_count : Nat
  error_count : Nat
  skip_count : Nat
  outcomes : List String
  error_messages : List String
deriving Repr, DecidableEq

/-- A fresh `FlakyTest` as `_process_results` constructs one: all counters
zero, no recorded outcomes. -/
def mkFlakyTest (test_id test_file test_function : String) : FlakyTest :=
  ⟨test_id, test_file, test_function, 0, 0, 0, 0, [], []⟩

/-- `FlakyTest.flakiness_score`: `0` on an empty history, otherwise
`min(pass_ratio, fail_ratio) * 2` over `total = len(outcomes)`. -/
def FlakyTest.flakiness_score (t : FlakyTest) : ℚ :=
  let total := t.outcomes.length
  if total = 0 then 0
  else
    let pass_ratio : ℚ := (t.pass_count : ℚ) / (total : ℚ)
    let fail_ratio : ℚ := (t.fail_count : ℚ) / (total : ℚ)
    min pass_ratio fail_ratio * 2

/-- `FlakyTest.is_flaky`: the recorded outcomes contain `passed` and also
`failed` or `error` (membership in `set(self.outcomes)`). -/
def FlakyTest.is_flaky (t : FlakyTest) : Bool :=
  let has_pass := t.outcomes.contains "passed"
  let has_fail := t.outcomes.contains "failed" || t.outcomes.contains "error"
  has_pass && has_fail

/-- The per-outcome character of `FlakyTest.failure_pattern`:
`'P' if o == 'passed' else 'F'`. -/
def outcomeChar (o : String) : Char :=
  if o = "passed" then 'P' else 'F'

/-- `FlakyTest.failure_pattern`: `stable` for a non-flaky aggregate, else the
first matching rule over the joined `P`/`F` outcome string. -/
def FlakyTest.failure_pattern (t : FlakyTest) : String :=
  if !t.is_flaky then "stable"
  else
    let outcomes_str := t.outcomes.map outcomeChar
    if outcomes_str.head? == some 'F' && outcomes_str.contains 'P' then
      "initially_failing"
    else if outcomes_str.head? == some 'P' && outcomes_str.contains 'F' then
      "initially_passing"
    else if outcomes_str.count 'F' < 3 then "rarely_failing"
    else if outcomes_str.count 'P' < 3 then "rarely_passing"
    else "intermittent"

/-- The per-result update of `FlakyDetector._process_results`: append the
outcome, then bump the counter matching the outcome string (an unrecognized
outcome bumps no counter); `failed` and `error` also record the message. -/
def FlakyTest.record (t : FlakyTest) (r : TestResult) : FlakyTest :=
  let t := { t with outcomes := t.outcomes ++ [r.outcome] }
  if r.outcome = "passed" then
    { t with pass_count := t.pass_count + 1 }
  else if r.outcome = "failed" then
    { t with fail_count := t.fail_count + 1,
             error_messages := t.error_messages ++ [r.error_message] }
  else if r.outcome = "error" then
    { t with error_count := t.error_count + 1,
             error_messages := t.error_messages ++ [r.error_message] }
  else if r.outcome = "skipped" then
    { t with skip_count := t.skip_count + 1 }
  else t

/-- Lookup in the insertion-ordered results dictionary. -/
def dictGet? (d : List (String × FlakyTest)) (k : String) : Option FlakyTest :=
  match d with
  | [] => none
  | (k', v') :: rest => if k' = k then some v' else dictGet? rest k

/-- Upsert in the insertion-ordered results dictionary: an existing key keeps
its position, a fresh key is appended at the end (Python dict semantics). -/
def dictSet (d : List (String × FlakyTest)) (k : String) (v : FlakyTest) :
    List (String × FlakyTest) :=
  match d with
  | [] => [(k, v)]
  | (k', v') :: rest => if k' = k then (k, v) :: rest else (k', v') :: dictSet rest k v

/-- One iteration of the loop in `FlakyDetector._process_results`: split the
node id on `::` for file/function, fetch or create the aggregate, record. -/
def process_result (d : List (String × FlakyTest)) (r : TestResult) :
    List (String × FlakyTest) :=
  let parts := r.test_id.splitOn "::"
  let test_file := parts.headD "unknown"
  let test_function := parts.getLastD "unknown"
  let flaky_test :=
    (dictGet? d r.test_id).getD (mkFlakyTest r.test_id test_file test_function)
  dictSet d r.test_id (flaky_test.record r)

/-- `FlakyDetector._process_results` folded over a run's results. -/
def process_results (d : List (String × FlakyTest)) (results : List TestResult) :
    List (String × FlakyTest) :=
  results.foldl process_result d

/-- The aggregate a single test accumulates when its recorded outcomes are
exactly `outcomes`: `FlakyTest.record` folded from a fresh aggregate (the
duration and message payloads do not influence any studied property). -/
def buildAggregate (outcomes : List String) : FlakyTest :=
  outcomes.foldl (fun t o => t.record ⟨"t", o, 0, ""⟩) (mkFlakyTest "t" "t" "t")

/-! ### Basic facts about `record` and `buildAggregate` -/

theorem record_outcomes (t : FlakyTest) (r : TestResult) :
    (t.record r).outcomes = t.outcomes ++ [r.outcome] := by
  simp only [FlakyTest.record]
  split_ifs <;> first | rfl | simp_all

theorem record_pass_count (t : FlakyTest) (r : TestResult) :
    (t.record r).pass_count = t.pass_count + (if r.outcome = "passed" then 1 else 0) := by
  simp only [FlakyTest.record]
  split_ifs <;> first | rfl | simp_all

theorem record_fail_count (t : FlakyTest) (r : TestResult) :
    (t.record r).fail_count = t.fail_count + (if r.outcome = "failed" then 1 else 0) := by
  simp only [FlakyTest.record]
  split_ifs <;> first | rfl | simp_all

theorem record_error_count (t : FlakyTest) (r : TestResult) :
    (t.record r).error_count = t.error_count + (if r.outcome = "error" then 1 else 0) := by
  simp only [FlakyTest.record]
  split_ifs <;> first | rfl | simp_all

theorem record_skip_count (t : FlakyTest) (r : TestResult) :
    (t.record r).skip_count = t.skip_count + (if r.outcome = "skipped" then 1 else 0) := by
  simp only [FlakyTest.record]
  split_ifs <;> first | rfl | simp_all

theorem buildGo_outcomes (os : List String) (t : FlakyTest) :
    (os.foldl (fun t o => t.record ⟨"t", o, 0, ""⟩) t).outcomes = t.outcomes ++ os := by
  induction os generalizing t with
  | nil => simp
  | cons o os ih => simp [List.foldl_cons, ih, record_outcomes]

theorem buildGo_pass (os : List String) (t : FlakyTest) :
    (os.foldl (fun t o => t.record ⟨"t", o, 0, ""⟩) t).pass_count
      = t.pass_count + os.count "passed" := by
  induction os generalizing t with
  | nil => simp
  | cons o os ih =>
      simp only [List.foldl_cons, ih, record_pass_count, List.count_cons]
      by_cases h : o = "passed" <;> simp [h] <;> omega

theorem buildGo_fail (os : List String) (t : FlakyTest) :
    (os.foldl (fun t o => t.record ⟨"t", o, 0, ""⟩) t).fail_count
      = t.fail_count + os.count "failed" := by
  induction os generalizing t with
  | nil => simp
  | cons o os ih =>
      simp only [List.foldl_cons, ih, record_fail_count, List.count_cons]
      by_cases h : o = "failed" <;> simp [h] <;> omega

theorem buildGo_error (os : List String) (t : FlakyTest) :
    (os.foldl (fun t o => t.record ⟨"t", o, 0, ""⟩) t).error_count
      = t.error_count + os.count "error" := by
  induction os generalizing t with
  | nil => simp
  | cons o os ih =>
      simp only [List.foldl_cons, ih, record_error_count, List.count_cons]
      by_cases h : o = "error" <;> simp [h] <;> omega

theorem buildGo_skip (os : List String) (t : FlakyTest) :
    (os.foldl (fun t o => t.record ⟨"t", o, 0, ""⟩) t).skip_count
      = t.skip_count + os.count "skipped" := by
  induction os generalizing t with
  | nil => simp
  | cons o os ih =>
      simp only [List.foldl_cons, ih, record_skip_count, List.count_cons]
      by_cases h : o = "skipped" <;> simp [h] <;> omega

theorem buildAggregate_outcomes (os : List String) :
    (buildAggregate os).outcomes = os := by
  simp [buildAggregate, buildGo_outcomes, mkFlakyTest]

theorem buildAggregate_pass (os : List String) :
    (buildAggregate os).pass_count = os.count "passed" := by
  simp [buildAggregate, buildGo_pass, mkFlakyTest]

theorem buildAggregate_fail (os : List String) :
    (buildAggregate os).fail_count = os.count "failed" := by
  simp [buildAggregate, buildGo_fail, mkFlakyTest]

theorem buildAggregate_error (os : List String) :
    (buildAggregate os).error_count = os.count "error" := by
  simp [buildAggregate, buildGo_error, mkFlakyTest]

theorem buildAggregate_skip (os : List String) :
    (buildAggregate os).skip_count = os.count "skipped" := by
  simp [buildAggregate, buildGo_skip, mkFlakyTest]

/-! ### `ci_analyzer.py`: CI aggregates -/

/-- `ci_analyzer.py` / `CIFlakyTest`: per-test aggregate of CI history. The
`runs` list keeps each recorded `CITestRun`'s status in order; the run's
provenance payload (ids, commit, timestamp, duration) is carried by the
source but read by none of the analyzed operations, and the `branches` set
is modelled as a deduplicating list. -/
structure CIFlakyTest where
  test_name : String
  total_runs : Nat
  pass_count : Nat
  fail_count : Nat
  skip_count : Nat
  runs : List String
  branches : List String
deriving Repr, DecidableEq

/-- `CIFlakyTest.flakiness_score`: `0` when `total_runs == 0`, otherwise
`min(pass_ratio, fail_ratio) * 2` over `total_runs`. -/
def CIFlakyTest.flakiness_score (t : CIFlakyTest) : ℚ :=
  if t.total_runs = 0 then 0
  else
    let pass_ratio : ℚ := (t.pass_count : ℚ) / (t.total_runs : ℚ)
    let fail_ratio : ℚ := (t.fail_count : ℚ) / (t.total_runs : ℚ)
    min pass_ratio fail_ratio * 2

/-- `CIFlakyTest.is_flaky`: `pass_count > 0 and fail_count > 0`. -/
def CIFlakyTest.is_flaky (t : CIFlakyTest) : Bool :=
  decide (0 < t.pass_count) && decide (0 < t.fail_count)

/-- The per-test-record body of `GitHubActionsAnalyzer.analyze` (the GitLab
analyzer's loop is identical): bump `total_runs`, record branch and run, and
bump the counter for the status — `failed` and `error` both land in
`fail_count`, an unrecognized status bumps no counter. -/
def CIFlakyTest.ci_record (t : CIFlakyTest) (status branch : String) : CIFlakyTest :=
  let t := { t with
    total_runs := t.total_runs + 1,
    branches := if t.branches.contains branch then t.branches else t.branches ++ [branch],
    runs := t.runs ++ [status] }
  if status = "passed" then
    { t with pass_count := t.pass_count + 1 }
  else if status = "failed" ∨ status = "error" then
    { t with fail_count := t.fail_count + 1 }
  else if status = "skipped" then
    { t with skip_count := t.skip_count + 1 }
  else t

/-- The CI aggregate a single test accumulates when the statuses parsed from
the CI logs for it are exactly `statuses`, in order. -/
def buildCIAggregate (statuses : List String) : CIFlakyTest :=
  statuses.foldl (fun t s => t.ci_record s "main") ⟨"t", 0, 0, 0, 0, [], []⟩

theorem ci_record_total (t : CIFlakyTest) (st br : String) :
    (t.ci_record st br).total_runs = t.total_runs + 1 := by
  simp only [CIFlakyTest.ci_record]
  split_ifs <;> rfl

theorem ci_record_pass (t : CIFlakyTest) (st br : String) :
    (t.ci_record st br).pass_count = t.pass_count + (if st = "passed" then 1 else 0) := by
  simp only [CIFlakyTest.ci_record]
  split_ifs <;> first | rfl | simp_all

theorem ci_record_fail (t : CIFlakyTest) (st br : String) :
    (t.ci_record st br).fail_count
      = t.fail_count + (if st = "failed" ∨ st = "error" then 1 else 0) := by
  simp only [CIFlakyTest.ci_record]
  split_ifs <;> first | rfl | simp_all

theorem buildCIGo_total (ss : List String) (t : CIFlakyTest) :
    (ss.foldl (fun t s => t.ci_record s "main") t).total_runs
      = t.total_runs + ss.length := by
  induction ss generalizing t with
  | nil => simp
  | cons s ss ih => simp [List.foldl_cons, ih, ci_record_total]; omega

theorem buildCIGo_pass (ss : List String) (t : CIFlakyTest) :
    (ss.foldl (fun t s => t.ci_record s "main") t).pass_count
      = t.pass_count + ss.count "passed" := by
  induction ss generalizing t with
  | nil => simp
  | cons s ss ih =>
      simp only [List.foldl_cons, ih, ci_record_pass, List.count_cons]
      by_cases h : s = "passed" <;> simp [h] <;> omega

theorem buildCIGo_fail (ss : List String) (t : CIFlakyTest) :
    (ss.foldl (fun t s => t.ci_record s "main") t).fail_count
      = t.fail_count + (ss.count "failed" + ss.count "error") := by
  induction ss generalizing t with
  | nil => simp
  | cons s ss ih =>
      simp only [List.foldl_cons, ih, ci_record_fail, List.count_cons]
      by_cases h1 : s = "failed" <;> by_cases h2 : s = "error" <;> simp_all <;> omega

theorem buildCIAggregate_total (ss : List String) :
    (buildCIAggregate ss).total_runs = ss.length := by
  simp [buildCIAggregate, buildCIGo_total]

theorem buildCIAggregate_pass (ss : List String) :
    (buildCIAggregate ss).pass_count = ss.count "passed" := by
  simp [buildCIAggregate, buildCIGo_pass]

theorem buildCIAggregate_fail (ss : List String) :
    (buildCIAggregate ss).fail_count = ss.count "failed" + ss.count "error" := by
  simp [buildCIAggregate, buildCIGo_fail]

/-! ### Arithmetic facts about the score formula -/

theorem count_passed_failed_le_length (s : List String) :
    s.count "passed" + s.count "failed" ≤ s.length := by
  induction s with
  | nil => simp
  | cons a s ih =>
      simp only [List.count_cons, List.length_cons]
      by_cases h1 : a = "passed" <;> by_cases h2 : a = "failed" <;> simp_all <;> omega

theorem min_div_cast (p f n : ℕ) :
    min ((p : ℚ) / (n : ℚ)) ((f : ℚ) / (n : ℚ)) = ((min p f : ℕ) : ℚ) / (n : ℚ) := by
  rw [min_div_div_right (by positivity) (p : ℚ) (f : ℚ), Nat.cast_min]

theorem flakiness_score_eq (s : List String) (h : s ≠ []) :
    (buildAggregate s).flakiness_score
      = ((min (s.count "passed") (s.count "failed") : ℕ) : ℚ) / (s.length : ℚ) * 2 := by
  have hlen : s.length ≠ 0 := by simpa [List.length_eq_zero] using h
  simp only [FlakyTest.flakiness_score, buildAggregate_outcomes, buildAggregate_pass,
    buildAggregate_fail, if_neg hlen, min_div_cast]

theorem score_core (cp cf n : ℕ) (hle : cp + cf ≤ n) (hn : n ≠ 0) :
    (0 ≤ ((min cp cf : ℕ) : ℚ) / (n : ℚ) * 2)
    ∧ (((min cp cf : ℕ) : ℚ) / (n : ℚ) * 2 ≤ 1)
    ∧ ((((min cp cf : ℕ) : ℚ) / (n : ℚ) * 2 = 1) ↔ (cp = cf ∧ cp + cf = n)) := by
  have hn' : (0 : ℚ) < (n : ℚ) := by exact_mod_cast Nat.pos_of_ne_zero hn
  have hmn : min cp cf * 2 ≤ n := by omega
  refine ⟨by positivity, ?_, ?_⟩
  · rw [div_mul_eq_mul_div, div_le_one hn']
    exact_mod_cast hmn
  · rw [div_mul_eq_mul_div, div_eq_one_iff_eq hn'.ne']
    constructor
    · intro hcast
      have : min cp cf * 2 = n := by exact_mod_cast hcast
      omega
    · intro hcase
      have : min cp cf * 2 = n := by omega
      exact_mod_cast this

/-! ### Claim theorems about the local aggregate's score and flakiness -/

/-- C2 (counterexample): an aggregate whose recorded outcomes are one pass,
one failure and two skips has `pass_count == fail_count`, but its
`flakiness_score` is `1/2`, not `1.0` — the 50/50 characterization of a
perfect score fails when skipped outcomes pad the denominator. -/
theorem score_one_needs_no_skips_counterexample :
    (buildAggregate ["passed", "failed", "skipped", "skipped"]).pass_count
      = (buildAggregate ["passed", "failed", "skipped", "skipped"]).fail_count
    ∧ (buildAggregate ["passed", "failed", "skipped", "skipped"]).flakiness_score = 1/2
    ∧ (buildAggregate ["passed", "failed", "skipped", "skipped"]).flakiness_score ≠ 1 := by
  have hp : (buildAggregate ["passed", "failed", "skipped", "skipped"]).pass_count = 1 := by
    decide
  have hf : (buildAggregate ["passed", "failed", "skipped", "skipped"]).fail_count = 1 := by
    decide
  have hm : min ((["passed", "failed", "skipped", "skipped"] : List String).count "passed")
      ((["passed", "failed", "skipped", "skipped"] : List String).count "failed") = 1 := by
    decide
  have hs : (buildAggregate ["passed", "failed", "skipped", "skipped"]).flakiness_score
      = 1/2 := by
    rw [flakiness_score_eq _ (by simp), hm]
    norm_num
  exact ⟨by rw [hp, hf], hs, by rw [hs]; norm_num⟩

/-- C2 (amended): for every outcome sequence the aggregate's
`flakiness_score` lies in `[0,1]`; it equals `0` whenever `pass_count` or
`fail_count` is zero; and it equals `1` exactly when `pass_count ==
fail_count` AND passes and failures are the whole recorded history
(`pass_count + fail_count == len(outcomes)`, nonempty) — with skipped or
errored outcomes present, a 50/50 pass/fail split scores below `1`. -/
theorem flakiness_score_bounds (s : List String) :
    0 ≤ (buildAggregate s).flakiness_score
    ∧ (buildAggregate s).flakiness_score ≤ 1
    ∧ ((buildAggregate s).flakiness_score = 1 ↔
        ((buildAggregate s).pass_count = (buildAggregate s).fail_count
          ∧ (buildAggregate s).pass_count + (buildAggregate s).fail_count = s.length
          ∧ s ≠ []))
    ∧ (((buildAggregate s).pass_count = 0 ∨ (buildAggregate s).fail_count = 0) →
        (buildAggregate s).flakiness_score = 0) := by
  rcases eq_or_ne s [] with rfl | h
  · refine ⟨le_refl 0, ?_, ?_, ?_⟩ <;>
      simp [FlakyTest.flakiness_score, buildAggregate, mkFlakyTest]
  · have hle := count_passed_failed_le_length s
    have hn : s.length ≠ 0 := by simpa [List.length_eq_zero] using h
    obtain ⟨h0, h1, hiff⟩ := score_core (s.count "passed") (s.count "failed") s.length hle hn
    rw [flakiness_score_eq s h, buildAggregate_pass, buildAggregate_fail]
    refine ⟨h0, h1, ?_, ?_⟩
    · rw [hiff]
      constructor
      · rintro ⟨a, b⟩; exact ⟨a, b, h⟩
      · rintro ⟨a, b, _⟩; exact ⟨a, b⟩
    · intro hz
      have : min (s.count "passed") (s.count "failed") = 0 := by omega
      rw [this]
      norm_num

/-- C5: with at least one recorded outcome, `flakiness_score` is exactly
`2 * min(pass_count/total, fail_count/total)` with `total` the number of all
recorded outcomes (skips and errors included in the denominator); the spec's
example sequences score `1.0`, `0.0` and `0.2` respectively. -/
theorem flakiness_score_formula (s : List String) :
    (s ≠ [] → (buildAggregate s).flakiness_score
        = 2 * min (((buildAggregate s).pass_count : ℚ) / (s.length : ℚ))
                  (((buildAggregate s).fail_count : ℚ) / (s.length : ℚ)))
    ∧ (buildAggregate ["passed", "failed", "passed", "failed"]).flakiness_score = 1
    ∧ (buildAggregate (List.replicate 10 "passed")).flakiness_score = 0
    ∧ (buildAggregate (List.replicate 9 "passed" ++ ["failed"])).flakiness_score = 1/5 := by
  refine ⟨?_, ?_, ?_, ?_⟩
  · intro h
    have hn : s.length ≠ 0 := by simpa [List.length_eq_zero] using h
    rw [flakiness_score_eq s h, buildAggregate_pass, buildAggregate_fail, min_div_cast]
    ring
  · have hm : min ((["passed", "failed", "passed", "failed"] : List String).count "passed")
        ((["passed", "failed", "passed", "failed"] : List String).count "failed") = 2 := by
      decide
    rw [flakiness_score_eq _ (by simp), hm]
    norm_num
  · have hm : min ((List.replicate 10 "passed").count "passed")
        ((List.replicate 10 "passed").count "failed") = 0 := by decide
    rw [flakiness_score_eq _ (by simp), hm]
    norm_num
  · have hm : min ((List.replicate 9 "passed" ++ ["failed"]).count "passed")
        ((List.replicate 9 "passed" ++ ["failed"]).count "failed") = 1 := by decide
    have hl : (List.replicate 9 "passed" ++ ["failed"]).length = 10 := by decide
    rw [flakiness_score_eq _ (by simp), hm, hl]
    norm_num

/-- C6: the local `is_flaky` holds exactly when the history contains at
least one pass and at least one failure or error (equivalently
`pass_count > 0` and `fail_count > 0 or error_count > 0`), and it is false
on all-pass and all-fail histories. -/
theorem is_flaky_iff (s : List String) :
    ((buildAggregate s).is_flaky = true ↔
      (0 < (buildAggregate s).pass_count
        ∧ (0 < (buildAggregate s).fail_count ∨ 0 < (buildAggregate s).error_count)))
    ∧ (∀ n : ℕ, (buildAggregate (List.replicate n "passed")).is_flaky = false)
    ∧ (∀ n : ℕ, (buildAggregate (List.replicate n "failed")).is_flaky = false) := by
  refine ⟨?_, ?_, ?_⟩
  · simp only [FlakyTest.is_flaky, Bool.and_eq_true, Bool.or_eq_true,
      buildAggregate_outcomes, buildAggregate_pass, buildAggregate_fail,
      buildAggregate_error, List.elem_iff, ← List.count_pos_iff]
  · intro n
    rw [Bool.eq_false_iff]
    simp only [ne_eq, FlakyTest.is_flaky, Bool.and_eq_true, Bool.or_eq_true,
      buildAggregate_outcomes, List.elem_iff, ← List.count_pos_iff, List.count_replicate]
    simp
  · intro n
    rw [Bool.eq_false_iff]
    simp only [ne_eq, FlakyTest.is_flaky, Bool.and_eq_true, Bool.or_eq_true,
      buildAggregate_outcomes, List.elem_iff, ← List.count_pos_iff, List.count_replicate]
    simp

/-! ### Claim theorems comparing the CI aggregate with the local one -/

/-- C1 (counterexample): on the outcome sequence `[passed, error]` the CI
aggregate scores `1.0` (it folds `error` into `fail_count`) while the local
aggregate scores `0.0` (it counts `error` separately) — the two score
functions are not equal on sequences containing `error`. -/
theorem ci_score_differs_from_local_on_error :
    (buildCIAggregate ["passed", "error"]).flakiness_score = 1
    ∧ (buildAggregate ["passed", "error"]).flakiness_score = 0
    ∧ (buildCIAggregate ["passed", "error"]).flakiness_score
        ≠ (buildAggregate ["passed", "error"]).flakiness_score := by
  have hci : (buildCIAggregate ["passed", "error"]).flakiness_score = 1 := by
    have ht : (buildCIAggregate ["passed", "error"]).total_runs = 2 := by decide
    have hp : (buildCIAggregate ["passed", "error"]).pass_count = 1 := by decide
    have hf : (buildCIAggregate ["passed", "error"]).fail_count = 1 := by decide
    simp only [CIFlakyTest.flakiness_score, ht, hp, hf]
    norm_num
  have hloc : (buildAggregate ["passed", "error"]).flakiness_score = 0 := by
    have hm : min ((["passed", "error"] : List String).count "passed")
        ((["passed", "error"] : List String).count "failed") = 0 := by decide
    rw [flakiness_score_eq _ (by simp), hm]
    norm_num
  exact ⟨hci, hloc, by rw [hci, hloc]; norm_num⟩

/-- C1 (amended): for every recorded outcome sequence the two `is_flaky`
predicates agree; and the two `flakiness_score` functions agree on every
sequence with no `error` outcome (`skipped` included). They differ on
sequences containing `error`, which the CI aggregate counts as failures. -/
theorem ci_local_aggregate_agreement (s : List String) :
    ((buildCIAggregate s).is_flaky = true ↔ (buildAggregate s).is_flaky = true)
    ∧ (s.count "error" = 0 →
        (buildCIAggregate s).flakiness_score = (buildAggregate s).flakiness_score) := by
  constructor
  · simp only [CIFlakyTest.is_flaky, FlakyTest.is_flaky, Bool.and_eq_true, Bool.or_eq_true,
      decide_eq_true_eq, buildCIAggregate_pass, buildCIAggregate_fail,
      buildAggregate_outcomes, List.elem_iff, ← List.count_pos_iff]
    omega
  · intro h
    simp only [CIFlakyTest.flakiness_score, FlakyTest.flakiness_score,
      buildCIAggregate_total, buildCIAggregate_pass, buildCIAggregate_fail,
      buildAggregate_outcomes, buildAggregate_pass, buildAggregate_fail, h, Nat.add_zero]

/-! ### C4: counter bookkeeping in `_process_results` -/

theorem record_counter_sum (t : FlakyTest) (r : TestResult) :
    (t.record r).pass_count + (t.record r).fail_count
        + (t.record r).error_count + (t.record r).skip_count
      = t.pass_count + t.fail_count + t.error_count + t.skip_count
        + (if r.outcome = "passed" ∨ r.outcome = "failed"
              ∨ r.outcome = "error" ∨ r.outcome = "skipped" then 1 else 0) := by
  rw [record_pass_count, record_fail_count, record_error_count, record_skip_count]
  by_cases h1 : r.outcome = "passed" <;> by_cases h2 : r.outcome = "failed" <;>
    by_cases h3 : r.outcome = "error" <;> by_cases h4 : r.outcome = "skipped" <;>
    simp_all <;> omega

theorem dictGet?_mem (d : List (String × FlakyTest)) (k : String) (t : FlakyTest) :
    dictGet? d k = some t → (k, t) ∈ d := by
  induction d with
  | nil => simp [dictGet?]
  | cons kv rest ih =>
      obtain ⟨k', v'⟩ := kv
      simp only [dictGet?]
      split_ifs with h
      · rintro ⟨rfl⟩
        subst h
        exact List.mem_cons_self _ _
      · intro hg
        exact List.mem_cons_of_mem _ (ih hg)

theorem mem_dictSet (d : List (String × FlakyTest)) (k : String) (v : FlakyTest)
    (x : String × FlakyTest) : x ∈ dictSet d k v → x ∈ d ∨ x = (k, v) := by
  induction d with
  | nil => simp [dictSet]
  | cons kv rest ih =>
      obtain ⟨k', v'⟩ := kv
      simp only [dictSet]
      split_ifs with h
      · intro hx
        rcases List.mem_cons.mp hx with rfl | hx
        · exact Or.inr rfl
        · exact Or.inl (List.mem_cons_of_mem _ hx)
      · intro hx
        rcases List.mem_cons.mp hx with rfl | hx
        · exact Or.inl (List.mem_cons_self _ _)
        · rcases ih hx with hx | hx
          · exact Or.inl (List.mem_cons_of_mem _ hx)
          · exact Or.inr hx

/-- The per-aggregate bookkeeping invariant of the detector. -/
def countersBalanced (t : FlakyTest) : Prop :=
  t.pass_count + t.fail_count + t.error_count + t.skip_count = t.outcomes.length

/-- A pytest outcome string the counting branch of `_process_results`
recognizes. -/
def recognizedOutcome (o : String) : Prop :=
  o = "passed" ∨ o = "failed" ∨ o = "error" ∨ o = "skipped"

instance (o : String) : Decidable (recognizedOutcome o) := by
  unfold recognizedOutcome
  infer_instance

theorem record_balanced (t : FlakyTest) (r : TestResult)
    (hr : recognizedOutcome r.outcome) (ht : countersBalanced t) :
    countersBalanced (t.record r) := by
  unfold countersBalanced at *
  rw [record_counter_sum, record_outcomes, List.length_append]
  unfold recognizedOutcome at hr
  rw [if_pos hr]
  simp [ht]

theorem process_result_balanced (d : List (String × FlakyTest)) (r : TestResult)
    (hr : recognizedOutcome r.outcome) (hd : ∀ kv ∈ d, countersBalanced kv.2) :
    ∀ kv ∈ process_result d r, countersBalanced kv.2 := by
  intro kv hkv
  simp only [process_result] at hkv
  rcases mem_dictSet _ _ _ _ hkv with h | h
  · exact hd kv h
  · subst h
    rcases hg : dictGet? d r.test_id with _ | t0
    · exact record_balanced _ _ hr (by simp [mkFlakyTest, countersBalanced])
    · exact record_balanced _ _ hr (hd _ (dictGet?_mem _ _ _ hg))

/-- C4 (counterexample): `_process_results` appends every outcome to the
history but increments a counter only for the four recognized statuses; one
result with outcome `xfailed` leaves an aggregate with one recorded outcome
and all four counters zero, so `pass+fail+error+skip != len(outcomes)`. -/
theorem counts_sum_counterexample :
    ((process_results [] [⟨"a::t", "xfailed", 0, ""⟩]).map
        (fun kv => kv.2.pass_count + kv.2.fail_count + kv.2.error_count + kv.2.skip_count))
      = [0]
    ∧ ((process_results [] [⟨"a::t", "xfailed", 0, ""⟩]).map
        (fun kv => kv.2.outcomes.length)) = [1] := by
  constructor <;> decide

/-- C4 (amended): after feeding `_process_results` any sequence of results
whose outcome strings are all recognized (`passed`/`failed`/`error`/
`skipped`), every aggregate in the results dictionary satisfies
`pass_count + fail_count + error_count + skip_count == len(outcomes)`;
an unrecognized status string breaks the equality. -/
theorem counts_sum_to_length (results : List TestResult)
    (hr : ∀ r ∈ results, recognizedOutcome r.outcome) :
    ∀ kv ∈ process_results [] results,
      kv.2.pass_count + kv.2.fail_count + kv.2.error_count + kv.2.skip_count
        = kv.2.outcomes.length := by
  have main : ∀ (rs : List TestResult) (d : List (String × FlakyTest)),
      (∀ r ∈ rs, recognizedOutcome r.outcome) → (∀ kv ∈ d, countersBalanced kv.2) →
      ∀ kv ∈ process_results d rs, countersBalanced kv.2 := by
    intro rs
    induction rs with
    | nil => intro d _ hd kv hkv; exact hd kv hkv
    | cons r rs ih =>
        intro d hrs hd
        simp only [process_results, List.foldl_cons] at *
        exact ih (process_result d r) (fun x hx => hrs x (List.mem_cons_of_mem _ hx))
          (process_result_balanced d r (hrs r (List.mem_cons_self _ _)) hd)
  exact main results [] hr (by simp)

/-- C4 witness: the amended invariant holds on a concrete two-result feed. -/
theorem counts_sum_to_length_witness :
    (∀ r ∈ ([⟨"a::t", "passed", 0, ""⟩, ⟨"a::t", "failed", 0, "boom"⟩] : List TestResult),
      recognizedOutcome r.outcome)
    ∧ ∀ kv ∈ process_results [] [⟨"a::t", "passed", 0, ""⟩, ⟨"a::t", "failed", 0, "boom"⟩],
        kv.2.pass_count + kv.2.fail_count + kv.2.error_count + kv.2.skip_count
          = kv.2.outcomes.length :=
  ⟨by decide, counts_sum_to_length _ (by decide)⟩

/-! ### C7 and C10: the failure-pattern classifier -/

/-- The claim's rule list for classifying a flaky history, stated directly
on the `P`/`F` character string, first match wins: leading `F` with a later
`P` is `initially_failing`; leading `P` with an `F` is `initially_passing`;
fewer than three `F` is `rarely_failing`; fewer than three `P` is
`rarely_passing`; otherwise `intermittent`. -/
def patternRules (cs : List Char) : String :=
  if cs.head? = some 'F' ∧ 'P' ∈ cs then "initially_failing"
  else if cs.head? = some 'P' ∧ 'F' ∈ cs then "initially_passing"
  else if cs.count 'F' < 3 then "rarely_failing"
  else if cs.count 'P' < 3 then "rarely_passing"
  else "intermittent"

theorem cascade_eq_patternRules (cs : List Char) :
    (if cs.head? == some 'F' && cs.contains 'P' then "initially_failing"
     else if cs.head? == some 'P' && cs.contains 'F' then "initially_passing"
     else if cs.count 'F' < 3 then "rarely_failing"
     else if cs.count 'P' < 3 then "rarely_passing"
     else "intermittent") = patternRules cs := by
  by_cases h1 : cs.head? = some 'F' ∧ 'P' ∈ cs <;>
    by_cases h2 : cs.head? = some 'P' ∧ 'F' ∈ cs <;>
      simp_all [patternRules, List.elem_iff]

/-- C7: a non-flaky aggregate is tagged `stable` without evaluating the
rules; a flaky aggregate's `failure_pattern` is exactly the claim's rule
cascade applied to the `P`/`F` string built from the outcomes in run order
(`passed` giving `P`, anything else — `failed`, `error` — giving `F`); the
spec's example sequences classify as `initially_failing` and
`initially_passing`. -/
theorem failure_pattern_spec (s : List String) :
    ((buildAggregate s).is_flaky = false → (buildAggregate s).failure_pattern = "stable")
    ∧ ((buildAggregate s).is_flaky = true →
        (buildAggregate s).failure_pattern
          = patternRules (s.map (fun o => if o = "passed" then 'P' else 'F')))
    ∧ (buildAggregate ["failed", "passed", "passed"]).failure_pattern = "initially_failing"
    ∧ (buildAggregate ["passed", "failed", "passed"]).failure_pattern = "initially_passing" := by
  refine ⟨?_, ?_, ?_, ?_⟩
  · intro hf
    simp [FlakyTest.failure_pattern, hf]
  · intro hf
    have hx : (fun o => if o = "passed" then 'P' else 'F') = outcomeChar := rfl
    rw [hx, ← cascade_eq_patternRules]
    simp only [FlakyTest.failure_pattern, hf, Bool.not_true, Bool.false_eq_true, if_false]
    rw [buildAggregate_outcomes]
  · decide
  · decide

/-- C10: the pattern-string comprehension maps every outcome other than
`passed` — `skipped` included — to `F`; hence a flaky aggregate whose
history starts with `skipped` is classified `initially_failing` even though
no failure precedes the first pass. -/
theorem skipped_leads_to_initially_failing (s : List String) :
    (∀ o : String, o ≠ "passed" → outcomeChar o = 'F')
    ∧ ((buildAggregate ("skipped" :: s)).is_flaky = true →
        (buildAggregate ("skipped" :: s)).failure_pattern = "initially_failing") := by
  constructor
  · intro o ho
    simp [outcomeChar, ho]
  · intro hf
    have hmem : "passed" ∈ ("skipped" :: s) := by
      have h := hf
      simp only [FlakyTest.is_flaky, Bool.and_eq_true, buildAggregate_outcomes,
        List.elem_iff] at h
      exact h.1
    have hps : "passed" ∈ s := by
      rcases List.mem_cons.mp hmem with h | h
      · exact absurd h (by decide)
      · exact h
    have hsk : outcomeChar "skipped" = 'F' := by simp [outcomeChar]
    have hP : ('F' :: s.map outcomeChar).contains 'P' = true := by
      rw [List.elem_iff]
      exact List.mem_cons_of_mem _ (List.mem_map.mpr ⟨"passed", hps, by simp [outcomeChar]⟩)
    simp only [FlakyTest.failure_pattern, hf, Bool.not_true, Bool.false_eq_true, if_false]
    rw [buildAggregate_outcomes, List.map_cons, hsk]
    simp [hP]
    intro h
    exact absurd (show outcomeChar "passed" = 'P' by simp [outcomeChar]) (h "passed" hps)

/-! ### C8: `ci_analyzer.get_flaky_tests` -/

/-- Insertion step of the descending-by-score sort: the new element moves
ahead of exactly the elements with a strictly smaller score, landing after
any element that ties — the placement a stable sort gives it. -/
def insort_desc (x : CIFlakyTest) : List CIFlakyTest → List CIFlakyTest
  | [] => [x]
  | y :: ys =>
      if y.flakiness_score < x.flakiness_score then x :: y :: ys
      else y :: insort_desc x ys

/-- Model of `flaky_tests.sort(key=lambda t: t.flakiness_score,
reverse=True)`. Python's sort is stable, and a stable sort by a key is
extensionally unique, so left-to-right insertion is a faithful model. -/
def sort_by_score_desc (l : List CIFlakyTest) : List CIFlakyTest :=
  l.foldl (fun acc x => insort_desc x acc) []

/-- `ci_analyzer.get_flaky_tests`: keep the aggregates with
`total_runs >= min_runs and is_flaky`, then sort by score descending. -/
def get_flaky_tests (test_results : List (String × CIFlakyTest)) (min_runs : Nat) :
    List CIFlakyTest :=
  let flaky_tests := test_results.filterMap
    (fun kv => if min_runs ≤ kv.2.total_runs ∧ kv.2.is_flaky = true then some kv.2 else none)
  sort_by_score_desc flaky_tests

theorem insort_desc_perm (x : CIFlakyTest) (l : List CIFlakyTest) :
    (insort_desc x l).Perm (x :: l) := by
  induction l with
  | nil => rfl
  | cons y ys ih =>
      simp only [insort_desc]
      split_ifs with h
      · rfl
      · exact ((ih.cons y).trans (List.Perm.swap x y ys)).symm.symm

theorem insort_desc_sorted (x : CIFlakyTest) (l : List CIFlakyTest)
    (hl : l.Pairwise (fun a b => b.flakiness_score ≤ a.flakiness_score)) :
    (insort_desc x l).Pairwise (fun a b => b.flakiness_score ≤ a.flakiness_score) := by
  induction l with
  | nil => simp [insort_desc]
  | cons y ys ih =>
      simp only [insort_desc]
      rcases List.pairwise_cons.mp hl with ⟨hy, hys⟩
      split_ifs with h
      · refine List.pairwise_cons.mpr ⟨?_, hl⟩
        intro z hz
        rcases List.mem_cons.mp hz with rfl | hz
        · exact le_of_lt h
        · exact le_trans (hy z hz) (le_of_lt h)
      · refine List.pairwise_cons.mpr ⟨?_, ih hys⟩
        intro z hz
        rcases List.mem_cons.mp ((insort_desc_perm x ys).mem_iff.mp hz) with rfl | hz
        · exact le_of_not_lt h
        · exact hy z hz

theorem sortGo_desc_perm (l acc : List CIFlakyTest) :
    (l.foldl (fun acc x => insort_desc x acc) acc).Perm (acc ++ l) := by
  induction l generalizing acc with
  | nil => simp
  | cons x l ih =>
      simp only [List.foldl_cons]
      refine (ih (insort_desc x acc)).trans ?_
      refine (List.Perm.append_right l (insort_desc_perm x acc)).trans ?_
      exact List.perm_middle.symm

theorem sortGo_desc_sorted (l acc : List CIFlakyTest)
    (hacc : acc.Pairwise (fun a b => b.flakiness_score ≤ a.flakiness_score)) :
    (l.foldl (fun acc x => insort_desc x acc) acc).Pairwise
      (fun a b => b.flakiness_score ≤ a.flakiness_score) := by
  induction l generalizing acc with
  | nil => exact hacc
  | cons x l ih => exact ih (insort_desc x acc) (insort_desc_sorted x acc hacc)

theorem filterMap_pred_eq (results : List (String × CIFlakyTest)) (min_runs : Nat) :
    results.filterMap
        (fun kv => if min_runs ≤ kv.2.total_runs ∧ kv.2.is_flaky = true then some kv.2 else none)
      = (results.map Prod.snd).filter
          (fun td => decide (min_runs ≤ td.total_runs) && td.is_flaky) := by
  induction results with
  | nil => rfl
  | cons kv rest ih =>
      simp only [List.filterMap_cons, List.map_cons, List.filter_cons]
      by_cases h1 : min_runs ≤ kv.2.total_runs ∧ kv.2.is_flaky = true
      · rw [if_pos h1, if_pos (by simp [h1.1, h1.2]), ih]
      · rw [if_neg h1, if_neg (by simpa using h1)]
        exact ih

theorem mem_get_flaky_tests (results : List (String × CIFlakyTest)) (min_runs : Nat)
    (td : CIFlakyTest) :
    td ∈ get_flaky_tests results min_runs ↔
      (td ∈ results.map Prod.snd ∧ min_runs ≤ td.total_runs ∧ td.is_flaky = true) := by
  simp only [get_flaky_tests, sort_by_score_desc]
  rw [(sortGo_desc_perm _ []).mem_iff]
  simp only [List.nil_append, filterMap_pred_eq, List.mem_filter, Bool.and_eq_true,
    decide_eq_true_eq]

/-- C8: `get_flaky_tests(results, min_runs)` returns a permutation of
exactly the aggregates with `total_runs >= min_runs` and `is_flaky`, in
descending `flakiness_score` order; with `min_runs = 3` every aggregate
with fewer than three runs is excluded regardless of flakiness. -/
theorem get_flaky_tests_spec (results : List (String × CIFlakyTest)) (min_runs : Nat) :
    ((get_flaky_tests results min_runs).Perm
        ((results.map Prod.snd).filter
          (fun td => decide (min_runs ≤ td.total_runs) && td.is_flaky)))
    ∧ (get_flaky_tests results min_runs).Pairwise
        (fun a b => b.flakiness_score ≤ a.flakiness_score)
    ∧ (∀ td, td ∈ get_flaky_tests results min_runs ↔
        (td ∈ results.map Prod.snd ∧ min_runs ≤ td.total_runs ∧ td.is_flaky = true))
    ∧ (∀ td ∈ get_flaky_tests results 3, 3 ≤ td.total_runs) := by
  refine ⟨?_, ?_, mem_get_flaky_tests results min_runs, ?_⟩
  · simp only [get_flaky_tests, sort_by_score_desc]
    rw [← filterMap_pred_eq]
    exact (sortGo_desc_perm _ []).trans (by simp)
  · simp only [get_flaky_tests, sort_by_score_desc]
    exact sortGo_desc_sorted _ [] (by simp)
  · intro td htd
    exact ((mem_get_flaky_tests results 3 td).mp htd).2.1

/-! ### `analyzer.py`: the root-cause classifier

`re.search` is modelled as an oracle `reSearch : pattern → line → Bool`;
the `ast` module's output is modelled as an optional `PyModule` listing the
`FunctionDef` nodes in walk order together with each node's `lineno` and its
`ast.get_source_segment` result. Every control-flow decision of
`RootCauseAnalyzer.analyze` is embedded exactly. -/

/-- `analyzer.py` / `FlakinessType`. -/
inductive FlakinessType where
  | TIME_DEPENDENT
  | RANDOM_DEPENDENT
  | ORDER_DEPENDENT
  | CONCURRENCY
  | EXTERNAL_DEPENDENCY
  | FLOATING_POINT
  | UNORDERED_COLLECTION
  | GLOBAL_STATE
  | UNKNOWN
deriving Repr, DecidableEq

/-- `analyzer.py` / `RootCause`. -/
structure RootCause where
  type : FlakinessType
  description : String
  line_numbers : List Nat
  code_snippets : List String
  confidence : ℚ
deriving Repr, DecidableEq

def TIME_PATTERNS : List String :=
  ["\\bdatetime\\.now\\(\\)", "\\btime\\.time\\(\\)", "\\btime\\.sleep\\(",
   "\\btimestamp\\b", "\\btoday\\(\\)", "\\butcnow\\(\\)"]

def RANDOM_PATTERNS : List String :=
  ["\\brandom\\.", "\\buuid\\.uuid4\\(\\)", "\\bgenerate_uuid\\(",
   "\\bgenerate_user_id\\(", "\\bshuffle\\(", "\\bshuffle_list\\(",
   "\\bchoice\\(", "\\brandint\\(", "\\brandrange\\(", "\\buuid4\\("]

def CONCURRENCY_PATTERNS : List String :=
  ["\\bthreading\\.", "\\bThread\\(", "\\basyncio\\.", "\\basync def\\b",
   "\\bawait\\b", "\\bmultiprocessing\\.", "\\bPool\\("]

def ORDER_PATTERNS : List String :=
  ["\\bset\\(", "\\bdict\\.keys\\(\\)", "\\bdict\\.values\\(\\)",
   "\\bdict\\.items\\(\\)", "\\.json\\(\\)"]

def EXTERNAL_PATTERNS : List String :=
  ["\\brequests\\.", "\\bhttp", "\\burl", "\\bapi", "\\bsocket\\.",
   "\\bopen\\(", "\\.read\\(", "\\.write\\("]

def FLOAT_PATTERNS : List String :=
  ["assert.*==.*\\d+\\.\\d+", "assertEqual.*\\d+\\.\\d+"]

def GLOBAL_STATE_PATTERNS : List String :=
  ["\\bglobal\\b", "\\b__class__\\.", "\\bsys\\.", "\\bos\\.environ"]

/-- A `FunctionDef` node as the analyzer reads it: its name, its first line
number, and the `ast.get_source_segment` result for it. -/
structure PyFunctionDef where
  name : String
  lineno : Nat
  source_segment : Option String
deriving Repr, DecidableEq

/-- A parsed module: the `FunctionDef` nodes in `ast.walk` order. -/
structure PyModule where
  functions : List PyFunctionDef
deriving Repr, DecidableEq

/-- `RootCauseAnalyzer._find_function`: the first `FunctionDef` with the
requested name, in walk order. -/
def find_function (functions : List PyFunctionDef) (func_name : String) :
    Option PyFunctionDef :=
  functions.find? (fun f => f.name == func_name)

/-- `RootCauseAnalyzer._check_pattern`: for each line (in order), if some
pattern matches — Python breaks at the first matching pattern — record
`(start_line + index, line.strip())`. -/
def check_pattern (reSearch : String → String → Bool) (patterns : List String)
    (lines : List String) (start_line : Nat) : List (Nat × String) :=
  lines.enum.filterMap fun p =>
    if patterns.any (fun pat => reSearch pat p.2) then some (start_line + p.1, p.2.trim)
    else none

def check_time_dependency (reSearch : String → String → Bool) (lines : List String)
    (start_line : Nat) : List RootCause :=
  let ms := check_pattern reSearch TIME_PATTERNS lines start_line
  if ms ≠ [] then
    [⟨FlakinessType.TIME_DEPENDENT,
      "Test uses current time/date which changes between runs",
      ms.map Prod.fst, ms.map Prod.snd, 9/10⟩]
  else []

def check_random_dependency (reSearch : String → String → Bool) (lines : List String)
    (start_line : Nat) : List RootCause :=
  let ms := check_pattern reSearch RANDOM_PATTERNS lines start_line
  if ms ≠ [] then
    [⟨FlakinessType.RANDOM_DEPENDENT,
      "Test uses random values without setting seed",
      ms.map Prod.fst, ms.map Prod.snd, 19/20⟩]
  else []

def check_concurrency (reSearch : String → String → Bool) (lines : List String)
    (start_line : Nat) : List RootCause :=
  let ms := check_pattern reSearch CONCURRENCY_PATTERNS lines start_line
  if ms ≠ [] then
    [⟨FlakinessType.CONCURRENCY,
      "Test involves threading/async code with potential race conditions",
      ms.map Prod.fst, ms.map Prod.snd, 4/5⟩]
  else []

def check_order_dependency (reSearch : String → String → Bool) (lines : List String)
    (start_line : Nat) : List RootCause :=
  let ms := check_pattern reSearch ORDER_PATTERNS lines start_line
  if ms ≠ [] then
    [⟨FlakinessType.UNORDERED_COLLECTION,
      "Test relies on ordering of sets/dicts which is not guaranteed",
      ms.map Prod.fst, ms.map Prod.snd, 7/10⟩]
  else []

def check_external_dependency (reSearch : String → String → Bool) (lines : List String)
    (start_line : Nat) : List RootCause :=
  let ms := check_pattern reSearch EXTERNAL_PATTERNS lines start_line
  if ms ≠ [] then
    [⟨FlakinessType.EXTERNAL_DEPENDENCY,
      "Test depends on external resources (network, filesystem, etc.)",
      ms.map Prod.fst, ms.map Prod.snd, 3/5⟩]
  else []

def check_floating_point (reSearch : String → String → Bool) (lines : List String)
    (start_line : Nat) : List RootCause :=
  let ms := check_pattern reSearch FLOAT_PATTERNS lines start_line
  if ms ≠ [] then
    [⟨FlakinessType.FLOATING_POINT,
      "Test uses exact floating point comparison which may fail due to rounding",
      ms.map Prod.fst, ms.map Prod.snd, 17/20⟩]
  else []

def check_global_state (reSearch : String → String → Bool) (lines : List String)
    (start_line : Nat) : List RootCause :=
  let ms := check_pattern reSearch GLOBAL_STATE_PATTERNS lines start_line
  if ms ≠ [] then
    [⟨FlakinessType.GLOBAL_STATE,
      "Test modifies global state which may affect other tests",
      ms.map Prod.fst, ms.map Prod.snd, 3/4⟩]
  else []

/-- The seven category checks of `RootCauseAnalyzer.analyze`, concatenated
in source order (time, random, concurrency, order, external, float,
global-state). -/
def gather_causes (reSearch : String → String → Bool) (func_lines : List String)
    (func_start_line : Nat) : List RootCause :=
  check_time_dependency reSearch func_lines func_start_line
    ++ check_random_dependency reSearch func_lines func_start_line
    ++ check_concurrency reSearch func_lines func_start_line
    ++ check_order_dependency reSearch func_lines func_start_line
    ++ check_external_dependency reSearch func_lines func_start_line
    ++ check_floating_point reSearch func_lines func_start_line
    ++ check_global_state reSearch func_lines func_start_line

/-- `RootCauseAnalyzer.analyze`: `tree = none` models an unparseable (or
missing) test file; an unresolved function name, a `None` source segment or
an empty segment return the empty list; otherwise the seven checks run,
with a single low-confidence `UNKNOWN` fallback when none fires. -/
def analyze (reSearch : String → String → Bool) (tree : Option PyModule)
    (test_function_name : String) : List RootCause :=
  match tree with
  | none =>
      [⟨FlakinessType.UNKNOWN, "Could not parse test file", [], [], 0⟩]
  | some t =>
      match find_function t.functions test_function_name with
      | none => []
      | some test_func =>
          match test_func.source_segment with
          | none => []
          | some func_source =>
              if func_source = "" then []
              else
                let func_lines := func_source.splitOn "\n"
                let causes := gather_causes reSearch func_lines test_func.lineno
                if causes = [] then
                  [⟨FlakinessType.UNKNOWN, "No obvious flakiness pattern detected",
                    [], [], 1/10⟩]
                else causes

/-- C3 (counterexample): on a parseable module that does not define the
requested function, `analyze` returns the empty list — not a single
`unknown` cause — so the claimed "never returns an empty/absent result"
fails at this input. -/
theorem analyze_unresolved_returns_empty :
    analyze (fun _ _ => false) (some ⟨[]⟩) "test_x" = [] := by
  rfl

/-- C3 (amended): `analyze` returns a single `unknown` cause with
confidence `0.0` and empty evidence when the file cannot be parsed, and a
single `unknown` cause with confidence `0.1` and empty evidence when the
span resolves but no category matches; when the span resolves the result is
never empty. But when the named function cannot be resolved — or its source
segment is missing or empty — `analyze` returns the empty list, not an
`unknown` cause. -/
theorem analyze_error_paths (reSearch : String → String → Bool) (t : PyModule)
    (fname : String) :
    (analyze reSearch none fname
        = [⟨FlakinessType.UNKNOWN, "Could not parse test file", [], [], 0⟩])
    ∧ (find_function t.functions fname = none → analyze reSearch (some t) fname = [])
    ∧ (∀ f, find_function t.functions fname = some f → f.source_segment = none →
        analyze reSearch (some t) fname = [])
    ∧ (∀ f src, find_function t.functions fname = some f → f.source_segment = some src →
        src ≠ "" →
        (analyze reSearch (some t) fname ≠ []
          ∧ (gather_causes reSearch (src.splitOn "\n") f.lineno = [] →
              analyze reSearch (some t) fname
                = [⟨FlakinessType.UNKNOWN, "No obvious flakiness pattern detected",
                    [], [], 1/10⟩]))) := by
  refine ⟨rfl, ?_, ?_, ?_⟩
  · intro hf
    simp only [analyze, hf]
  · intro f hf hseg
    simp only [analyze, hf, hseg]
  · intro f src hf hseg hne
    simp only [analyze, hf, hseg, if_neg hne]
    constructor
    · split_ifs with hc
      · simp
      · simpa using hc
    · intro hc
      rw [if_pos hc]

/-! ### `suggester.py`: the repair suggester -/

/-- `suggester.py` / `RepairSuggestion`. The `code_example` field — a long
free-text snippet — is not modelled: nothing in the package reads it (the
dedup key is `title`, the sort key `priority`). -/
structure RepairSuggestion where
  title : String
  description : String
  priority : Nat
deriving Repr, DecidableEq

/-- `RepairSuggester._suggest_time_fixes`. -/
def suggest_time_fixes : List RepairSuggestion :=
  [⟨"Mock datetime.now() with freezegun",
    "Use freezegun to freeze time during test execution", 1⟩,
   ⟨"Inject time as parameter",
    "Pass time as a parameter instead of calling datetime.now() inside code", 1⟩]

/-- `RepairSuggester._suggest_random_fixes`. -/
def suggest_random_fixes : List RepairSuggestion :=
  [⟨"Set random seed before test",
    "Fix the random seed to make tests deterministic", 1⟩,
   ⟨"Use pytest fixtures for random data",
    "Generate random test data in fixtures with fixed seed", 1⟩,
   ⟨"Mock random module",
    "Mock the random module to return predetermined values", 2⟩]

/-- `RepairSuggester._suggest_concurrency_fixes`. -/
def suggest_concurrency_fixes : List RepairSuggestion :=
  [⟨"Add proper synchronization",
    "Use locks, events, or other synchronization primitives", 1⟩,
   ⟨"Use pytest-asyncio for async tests",
    "Properly handle async tests with pytest-asyncio", 1⟩,
   ⟨"Add timeouts and retries",
    "Add explicit timeouts for async operations", 2⟩]

/-- `RepairSuggester._suggest_order_fixes`. -/
def suggest_order_fixes : List RepairSuggestion :=
  [⟨"Sort collections before comparison",
    "Convert to sorted lists for deterministic ordering", 1⟩,
   ⟨"Use ordered collections",
    "Replace set/dict with list/OrderedDict when order matters", 1⟩]

/-- `RepairSuggester._suggest_external_fixes`. -/
def suggest_external_fixes : List RepairSuggestion :=
  [⟨"Mock external dependencies",
    "Use mocks instead of real external calls", 1⟩,
   ⟨"Use pytest fixtures for test files",
    "Create temporary files in fixtures", 1⟩,
   ⟨"Use responses library for HTTP",
    "Mock HTTP requests with the responses library", 2⟩]

/-- `RepairSuggester._suggest_float_fixes`. -/
def suggest_float_fixes : List RepairSuggestion :=
  [⟨"Use pytest.approx for float comparison",
    "Compare floats with tolerance using pytest.approx", 1⟩,
   ⟨"Use math.isclose()",
    "Use math.isclose() for relative/absolute tolerance", 1⟩]

/-- `RepairSuggester._suggest_global_state_fixes`. -/
def suggest_global_state_fixes : List RepairSuggestion :=
  [⟨"Reset global state in fixtures",
    "Use pytest fixtures to reset state before/after tests", 1⟩,
   ⟨"Mock environment variables",
    "Use monkeypatch to temporarily set environment variables", 1⟩,
   ⟨"Use dependency injection",
    "Pass dependencies as parameters instead of using globals", 2⟩]

/-- The per-cause dispatch of `suggest_repairs`: the if/elif chain over
`cause.type` (note `ORDER_DEPENDENT` and `UNKNOWN` are dispatched by no
branch and yield nothing). -/
def suggestions_for (cause : RootCause) : List RepairSuggestion :=
  if cause.type = FlakinessType.TIME_DEPENDENT then suggest_time_fixes
  else if cause.type = FlakinessType.RANDOM_DEPENDENT then suggest_random_fixes
  else if cause.type = FlakinessType.CONCURRENCY then suggest_concurrency_fixes
  else if cause.type = FlakinessType.UNORDERED_COLLECTION then suggest_order_fixes
  else if cause.type = FlakinessType.EXTERNAL_DEPENDENCY then suggest_external_fixes
  else if cause.type = FlakinessType.FLOATING_POINT then suggest_float_fixes
  else if cause.type = FlakinessType.GLOBAL_STATE then suggest_global_state_fixes
  else []

/-- The `suggestions` list accumulated by the loop of `suggest_repairs`. -/
def all_suggestions (causes : List RootCause) : List RepairSuggestion :=
  causes.flatMap suggestions_for

/-- The dedup pass of `suggest_repairs` with its `seen` set of titles. -/
def dedup_by_title_go (seen : List String) :
    List RepairSuggestion → List RepairSuggestion
  | [] => []
  | s :: rest =>
      if s.title ∈ seen then dedup_by_title_go seen rest
      else s :: dedup_by_title_go (s.title :: seen) rest

/-- `suggest_repairs`' dedup: keep the first occurrence of each title. -/
def dedup_by_title (l : List RepairSuggestion) : List RepairSuggestion :=
  dedup_by_title_go [] l

/-- Insertion step of the ascending-by-priority sort: the new element moves
ahead of exactly the elements with strictly larger priority, landing after
ties — the placement Python's stable `sorted` gives it. -/
def insort_asc (x : RepairSuggestion) :
    List RepairSuggestion → List RepairSuggestion
  | [] => [x]
  | y :: ys => if x.priority < y.priority then x :: y :: ys else y :: insort_asc x ys

/-- Model of `sorted(unique_suggestions, key=lambda s: s.priority)`:
Python's `sorted` is stable, and a stable sort by a key is extensionally
unique, so left-to-right insertion is a faithful model. -/
def sort_by_priority (l : List RepairSuggestion) : List RepairSuggestion :=
  l.foldl (fun acc x => insort_asc x acc) []

/-- `RepairSuggester.suggest_repairs`: gather per-cause suggestions in
order, drop later duplicate titles, stable-sort ascending by priority. -/
def suggest_repairs (causes : List RootCause) : List RepairSuggestion :=
  sort_by_priority (dedup_by_title (all_suggestions causes))

theorem insort_asc_perm (x : RepairSuggestion) (l : List RepairSuggestion) :
    (insort_asc x l).Perm (x :: l) := by
  induction l with
  | nil => rfl
  | cons y ys ih =>
      simp only [insort_asc]
      split_ifs with h
      · rfl
      · exact (ih.cons y).trans (List.Perm.swap x y ys)

theorem insort_asc_sorted (x : RepairSuggestion) (l : List RepairSuggestion)
    (hl : l.Pairwise (fun a b => a.priority ≤ b.priority)) :
    (insort_asc x l).Pairwise (fun a b => a.priority ≤ b.priority) := by
  induction l with
  | nil => simp [insort_asc]
  | cons y ys ih =>
      simp only [insort_asc]
      rcases List.pairwise_cons.mp hl with ⟨hy, hys⟩
      split_ifs with h
      · refine List.pairwise_cons.mpr ⟨?_, hl⟩
        intro z hz
        rcases List.mem_cons.mp hz with rfl | hz
        · exact le_of_lt h
        · exact le_trans (le_of_lt h) (hy z hz)
      · refine List.pairwise_cons.mpr ⟨?_, ih hys⟩
        intro z hz
        rcases List.mem_cons.mp ((insort_asc_perm x ys).mem_iff.mp hz) with rfl | hz
        · exact le_of_not_lt h
        · exact hy z hz

theorem sortGo_asc_perm (l acc : List RepairSuggestion) :
    (l.foldl (fun acc x => insort_asc x acc) acc).Perm (acc ++ l) := by
  induction l generalizing acc with
  | nil => simp
  | cons x l ih =>
      simp only [List.foldl_cons]
      refine (ih (insort_asc x acc)).trans ?_
      refine (List.Perm.append_right l (insort_asc_perm x acc)).trans ?_
      exact List.perm_middle.symm

theorem sortGo_asc_sorted (l acc : List RepairSuggestion)
    (hacc : acc.Pairwise (fun a b => a.priority ≤ b.priority)) :
    (l.foldl (fun acc x => insort_asc x acc) acc).Pairwise
      (fun a b => a.priority ≤ b.priority) := by
  induction l generalizing acc with
  | nil => exact hacc
  | cons x l ih => exact ih (insort_asc x acc) (insort_asc_sorted x acc hacc)

theorem insort_asc_filter (x : RepairSuggestion) (l : List RepairSuggestion) (p : Nat)
    (hl : l.Pairwise (fun a b => a.priority ≤ b.priority)) :
    (insort_asc x l).filter (fun s => s.priority == p)
      = if x.priority = p
          then l.filter (fun s => s.priority == p) ++ [x]
          else l.filter (fun s => s.priority == p) := by
  induction l with
  | nil =>
      by_cases hx : x.priority = p <;>
        simp [insort_asc, List.filter_cons, beq_iff_eq, hx]
  | cons y ys ih =>
      rcases List.pairwise_cons.mp hl with ⟨hy, hys⟩
      simp only [insort_asc]
      split_ifs with hlt hx hx
      · have hnil : (y :: ys).filter (fun s => s.priority == p) = [] := by
          rw [List.filter_eq_nil_iff]
          intro z hz
          have hp : p < z.priority := by
            rcases List.mem_cons.mp hz with rfl | hz
            · omega
            · have := hy z hz
              omega
          simp only [beq_iff_eq]
          omega
        have hfx : (fun s => s.priority == p) x = true := by simp [hx]
        rw [List.filter_cons, if_pos hfx, hnil]
        rfl
      · have hfx : (fun s => s.priority == p) x = false := by simp [hx]
        rw [List.filter_cons, if_neg (by simp [hfx])]
      · simp only [List.filter_cons, ih hys, if_pos hx]
        by_cases hyp : y.priority = p <;> simp [beq_iff_eq, hyp]
      · simp only [List.filter_cons, ih hys, if_neg hx]

theorem sortGo_asc_filter (l acc : List RepairSuggestion) (p : Nat)
    (hacc : acc.Pairwise (fun a b => a.priority ≤ b.priority)) :
    (l.foldl (fun acc x => insort_asc x acc) acc).filter (fun s => s.priority == p)
      = acc.filter (fun s => s.priority == p) ++ l.filter (fun s => s.priority == p) := by
  induction l generalizing acc with
  | nil => simp
  | cons x l ih =>
      simp only [List.foldl_cons]
      rw [ih (insort_asc x acc) (insort_asc_sorted x acc hacc),
        insort_asc_filter x acc p hacc]
      by_cases hx : x.priority = p <;> simp [List.filter_cons, hx]

theorem dedup_go_titles_nodup (l : List RepairSuggestion) (seen : List String) :
    ((dedup_by_title_go seen l).map (fun s => s.title)).Nodup
    ∧ ∀ s ∈ dedup_by_title_go seen l, s.title ∉ seen := by
  induction l generalizing seen with
  | nil => simp [dedup_by_title_go]
  | cons a l ih =>
      simp only [dedup_by_title_go]
      split_ifs with h
      · exact ih seen
      · obtain ⟨ih1, ih2⟩ := ih (a.title :: seen)
        refine ⟨?_, ?_⟩
        · simp only [List.map_cons, List.nodup_cons]
          refine ⟨?_, ih1⟩
          intro hmem
          rcases List.mem_map.mp hmem with ⟨s, hs, ht⟩
          exact (ih2 s hs) (by rw [ht]; exact List.mem_cons_self _ _)
        · intro s hs
          rcases List.mem_cons.mp hs with rfl | hs
          · exact h
          · exact fun hmem => (ih2 s hs) (List.mem_cons_of_mem _ hmem)

theorem mem_dedup_go (l : List RepairSuggestion) (seen : List String)
    (s : RepairSuggestion) :
    s ∈ dedup_by_title_go seen l ↔
      (s.title ∉ seen ∧ l.find? (fun x => x.title == s.title) = some s) := by
  induction l generalizing seen with
  | nil => simp [dedup_by_title_go]
  | cons a l ih =>
      simp only [dedup_by_title_go]
      split_ifs with h
      · rw [ih seen]
        by_cases hteq : a.title = s.title
        · constructor
          · rintro ⟨hns, _⟩
            exact absurd (hteq ▸ h) hns
          · rintro ⟨hns, _⟩
            exact absurd (hteq ▸ h) hns
        · rw [List.find?_cons_of_neg _ (by simpa using hteq)]
      · rw [List.mem_cons, ih (a.title :: seen)]
        by_cases hteq : a.title = s.title
        · rw [List.find?_cons_of_pos _ (by simpa using hteq)]
          constructor
          · rintro (rfl | ⟨hns, _⟩)
            · exact ⟨by simpa using h, rfl⟩
            · exact absurd (hteq ▸ List.mem_cons_self a.title seen) hns
          · rintro ⟨_, heq⟩
            exact Or.inl (Option.some_inj.mp heq).symm
        · rw [List.find?_cons_of_neg _ (by simpa using hteq)]
          constructor
          · rintro (rfl | ⟨hns, hfind⟩)
            · exact absurd rfl hteq
            · exact ⟨fun hm => hns (List.mem_cons_of_mem _ hm), hfind⟩
          · rintro ⟨hns, hfind⟩
            refine Or.inr ⟨?_, hfind⟩
            intro hm
            rcases List.mem_cons.mp hm with h1 | h1
            · exact hteq h1.symm
            · exact hns h1

/-- C9: `suggest_repairs` never returns two suggestions with the same
title — each surviving suggestion is exactly the first occurrence of its
title in the gathered per-cause list — and its output is stable-sorted
ascending by priority: priorities are non-decreasing, and for each priority
level the output lists exactly the deduplicated suggestions of that level
in their original order. -/
theorem suggest_repairs_spec (causes : List RootCause) :
    ((suggest_repairs causes).map (fun s => s.title)).Nodup
    ∧ (suggest_repairs causes).Pairwise (fun a b => a.priority ≤ b.priority)
    ∧ (∀ p : Nat, (suggest_repairs causes).filter (fun s => s.priority == p)
        = (dedup_by_title (all_suggestions causes)).filter (fun s => s.priority == p))
    ∧ (∀ s, s ∈ suggest_repairs causes ↔
        (all_suggestions causes).find? (fun x => x.title == s.title) = some s) := by
  have hperm : (suggest_repairs causes).Perm (dedup_by_title (all_suggestions causes)) := by
    unfold suggest_repairs sort_by_priority
    exact (sortGo_asc_perm _ []).trans (by simp)
  refine ⟨?_, ?_, ?_, ?_⟩
  · exact (hperm.map (fun s => s.title)).nodup_iff.mpr
      (dedup_go_titles_nodup (all_suggestions causes) []).1
  · unfold suggest_repairs sort_by_priority
    exact sortGo_asc_sorted _ [] (by simp)
  · intro p
    unfold suggest_repairs sort_by_priority
    rw [sortGo_asc_filter _ [] p (by simp)]
    simp
  · intro s
    rw [hperm.mem_iff]
    unfold dedup_by_title
    rw [mem_dedup_go]
    simp

end FlakyDetector
